import Mathlib

/-!
Verification of the provider-agnostic CRUD data-access layer
(`@for-the-people/data`): a shallow embedding of the core service
(`packages/core/src/services/data.ts`), the reference adapters
(`packages/core/src/adapters/supabase.ts`, in-memory adapter), and the
HTTP-surface query parsing (`packages/api/src/routes/resources.ts`),
together with theorems settling the specification's claims about them.

Conventions of the embedding:
- JavaScript `Map` objects are modelled as insertion-ordered association
  lists (`List (String × α)`) with `mapGet`/`mapSet`/`mapDelete`
  mirroring `Map.get`/`Map.set`/`Map.delete` observationally.
- Thrown JavaScript values are modelled by `AppError`: `dataError`
  embeds the repository's `DataError` class (message + code), and
  `plainError` embeds a bare `Error` (message only).  Both are `Error`
  instances in JS, so `err.message` is modelled by `errMsg`.
- Asynchronous methods contain no internal concurrency relevant to the
  claims (see the notes at `memCreateMany`), so they are embedded as
  pure state-passing functions.
- Numeric quantities that the source uses as counts/indices
  (limit, offset, timestamps) are modelled as `Nat`.
-/

namespace Data

/-- Error codes of the repository's `DataError` class
(`packages/core/src/types/index.ts`). -/
inductive ErrCode where
  | VALIDATION
  | NOT_FOUND
  | ADAPTER
  | UNKNOWN
deriving DecidableEq, Repr

/-- A thrown JavaScript value: either the repository's `DataError`
(message and code) or a plain `Error` (message only). -/
inductive AppError where
  | dataError (message : String) (code : ErrCode)
  | plainError (message : String)
deriving DecidableEq, Repr

/-- The `message` property of a thrown `Error` (both variants model
`Error` instances). -/
def errMsg : AppError → String
  | .dataError m _ => m
  | .plainError m => m

/-- Whether a thrown value is a `DataError` carrying the given code.
A `plainError` carries no code at all. -/
def errorHasCode (e : AppError) (c : ErrCode) : Bool :=
  match e with
  | .dataError _ c' => c' = c
  | .plainError _ => false

/-! ### String splitting and joining (JS `String.prototype.split` / `Array.prototype.join`)

`s.split(sep)` for a one-character separator, and `parts.join(sep)`.
`"".split(":")` is `[""]` in JS, matched by `jsSplitAux` returning the
(empty) accumulator when the input is exhausted. -/

def jsSplitAux (sep : Char) : List Char → List Char → List (List Char)
  | [], acc => [acc.reverse]
  | c :: rest, acc =>
    if c = sep then acc.reverse :: jsSplitAux sep rest []
    else jsSplitAux sep rest (c :: acc)

/-- JS `s.split(sep)` for a single-character separator. -/
def jsSplit (sep : Char) (s : String) : List String :=
  (jsSplitAux sep s.data []).map String.mk

/-- JS `parts.join(sep)`. -/
def jsJoin (sep : String) : List String → String
  | [] => ""
  | [x] => x
  | x :: xs => x ++ sep ++ jsJoin sep xs

/-! ### Identifier validation (`DataService.validateTable` / `validateId`)

Source (`packages/core/src/services/data.ts`):
```
const TABLE_NAME_RE = /^[a-zA-Z_][a-zA-Z0-9_]{0,62}$/;
const ID_RE = /^[a-zA-Z0-9_-]{1,255}$/;
```
The anchored regexes are embedded directly as character-list predicates;
`Char.isAlpha`/`Char.isDigit` are exactly the ASCII ranges of the
character classes. -/

/-- Embedding of `TABLE_NAME_RE.test table`. -/
def tableNameOk (s : String) : Bool :=
  match s.data with
  | [] => false
  | c :: rest =>
    (c.isAlpha || c = '_') && decide (rest.length ≤ 62)
      && rest.all (fun d => d.isAlphanum || d = '_')

/-- Embedding of `ID_RE.test id`. -/
def idOk (s : String) : Bool :=
  decide (1 ≤ s.data.length) && decide (s.data.length ≤ 255)
    && s.data.all (fun c => c.isAlphanum || c = '_' || c = '-')

/-- `DataService.validateTable`.  `allowed = none` models an undefined
`allowedTables` config; note that in JS an *empty* configured array is
truthy, so `some []` rejects every table, as in the source. -/
def validateTable (allowed : Option (List String)) (table : String) :
    Except AppError Unit :=
  if ¬ tableNameOk table then
    .error (.dataError ("Invalid table name: " ++ table) .VALIDATION)
  else
    match allowed with
    | some ts =>
      if table ∈ ts then .ok ()
      else .error (.dataError ("Table not allowed: " ++ table) .VALIDATION)
    | none => .ok ()

/-- `DataService.validateId`. -/
def validateId (id : String) : Except AppError Unit :=
  if ¬ idOk id then
    .error (.dataError ("Invalid id: " ++ id) .VALIDATION)
  else .ok ()

/-- The table-name pattern exactly as the specification words it:
starts with a letter or underscore, followed by up to 62 letters,
digits, or underscores. -/
def specTablePattern (s : String) : Prop :=
  match s.data with
  | [] => False
  | c :: rest =>
    (c.isAlpha = true ∨ c = '_') ∧ rest.length ≤ 62 ∧
      ∀ d ∈ rest, d.isAlphanum = true ∨ d = '_'

/-- Allow-list membership as the specification words it: when an
allow-list is configured the name must be a member; with no allow-list
there is no constraint. -/
def specAllowListOk (allowed : Option (List String)) (s : String) : Prop :=
  ∀ ts, allowed = some ts → s ∈ ts

/-! ### JSON values and record payloads -/

/-- A JSON value.  Numbers are kept exactly as mantissa × 10^exp10
(the decimal the token denotes); e.g. `18` is `num 18 0` and `1.5` is
`num 15 (-1)`. -/
inductive Json where
  | null
  | bool (b : Bool)
  | num (mantissa : Int) (exp10 : Int)
  | str (s : String)
  | arr (elems : List Json)
  | obj (members : List (String × Json))

/-- A data record (`DataRecord`): an `id`, optional timestamps, and the
remaining fields as an ordered field map. -/
structure Rec where
  id : String
  created_at : Option String
  updated_at : Option String
  fields : List (String × Json)

/-! ### JS `Map` model: insertion-ordered association lists -/

/-- `Map.get` (first binding for the key). -/
def mapGet (m : List (String × α)) (k : String) : Option α :=
  (m.find? (fun kv => kv.1 = k)).map (fun kv => kv.2)

/-- `Map.set`: replace in place when the key is present, else append. -/
def mapSet (m : List (String × α)) (k : String) (v : α) : List (String × α) :=
  if (m.find? (fun kv => kv.1 = k)).isSome then
    m.map (fun kv => if kv.1 = k then (k, v) else kv)
  else m ++ [(k, v)]

/-- `Map.delete`. -/
def mapDelete (m : List (String × α)) (k : String) : List (String × α) :=
  m.filter (fun kv => kv.1 ≠ k)

/-! ### The DataService cache (`packages/core/src/services/data.ts`) -/

/-- A cache slot: the cached record and its absolute expiry timestamp
(`CacheEntry` in the source). -/
structure CEntry where
  data : Rec
  expiresAt : Nat

/-- The service cache: a JS `Map` from key to entry. -/
abbrev Cache : Type := List (String × CEntry)

/-- `DataService.cacheKey`. -/
def cacheKey (table : String) (id? : Option String) : String :=
  match id? with
  | some id => table ++ ":" ++ id
  | none => table

/-- `DataService.getCached`: returns the hit (if any) together with the
cache after the lookup (an expired entry is deleted and reported as a
miss).  `now` models `Date.now()`. -/
def getCached (now : Nat) (cache : Cache) (key : String) :
    Option Rec × Cache :=
  match mapGet cache key with
  | none => (none, cache)
  | some entry =>
    if now > entry.expiresAt then (none, mapDelete cache key)
    else (some entry.data, cache)

/-- `DataService.setCache`: a no-op unless `cacheTtlMs > 0`. -/
def setCache (ttl now : Nat) (cache : Cache) (key : String) (r : Rec) :
    Cache :=
  if ttl > 0 then mapSet cache key ⟨r, now + ttl⟩ else cache

/-- `DataService.invalidateTable`: delete every key starting with
`table ++ ":"`. -/
def invalidateTable (cache : Cache) (table : String) : Cache :=
  cache.filter (fun kv => ¬ (table ++ ":").data.isPrefixOf kv.1.data)

/-! ### Pagination (`PaginatedResult`) and the two `findMany` implementations -/

/-- `PaginatedResult<T>` from `packages/core/src/types/index.ts`. -/
structure Page where
  data : List Rec
  count : Nat
  limit : Nat
  offset : Nat
  hasMore : Bool

/-- `InMemoryAdapter.findMany`, pagination stage: `records` stands for
the filtered and sorted record sequence (the claims quantify over it,
covering every outcome of the per-record predicate filter and the
comparison sort, both of which preserve membership counts).  Mirrors:
`total = records.length`, `data = records.slice(offset, offset+limit)`,
`hasMore = offset + limit < total`, with defaults `offset = 0`,
`limit = 50`. -/
def memFindMany (records : List Rec) (limit? offset? : Option Nat) : Page :=
  let total := records.length
  let offset := offset?.getD 0
  let limit := limit?.getD 50
  let data := (records.drop offset).take limit
  ⟨data, total, limit, offset, decide (offset + limit < total)⟩

/-- `SupabaseAdapter.findMany`, result-assembly stage: `rows` and
`count?` are the rows and exact-count metadata the backend answered
with (`data ?? []` and `count ?? 0`).  Mirrors:
`hasMore = offset + rows.length < totalCount`. -/
def supaFindMany (rows : List Rec) (count? : Option Nat)
    (limit? offset? : Option Nat) : Page :=
  let limit := limit?.getD 50
  let offset := offset?.getD 0
  let totalCount := count?.getD 0
  ⟨rows, totalCount, limit, offset, decide (offset + rows.length < totalCount)⟩

/-! ### The in-memory adapter's mutable store -/

/-- `InMemoryAdapter.tables`: a JS `Map` from table name to its record
array. -/
abbrev Tables : Type := List (String × List Rec)

/-- The records of a table as `getTable` observes them (`[]` when the
table has no entry yet; `getTable`'s lazy insertion of an empty array
is observationally invisible through this accessor). -/
def recsOf (tables : Tables) (table : String) : List Rec :=
  (mapGet tables table).getD []

/-- Decimal digit characters. -/
def digitChar : Nat → Char
  | 0 => '0' | 1 => '1' | 2 => '2' | 3 => '3' | 4 => '4'
  | 5 => '5' | 6 => '6' | 7 => '7' | 8 => '8' | _ => '9'

/-- Decimal digits of `n`, most significant first (fuel-structured so
that it evaluates in the kernel; any `fuel > n` suffices). -/
def natDecimalAux : Nat → Nat → List Char
  | 0, _ => []
  | fuel + 1, n =>
    if n < 10 then [digitChar n]
    else natDecimalAux fuel (n / 10) ++ [digitChar (n % 10)]

/-- Decimal rendering of a natural number (the `${counter}` fragment of
the fallback id). -/
def natDecimal (n : Nat) : String :=
  String.mk (natDecimalAux (n + 1) n)

/-- Modelled from the source's `uuid()` fallback branch
`mem-${Date.now()}-${counter}-${random}`: the timestamp and random
fragments are omitted and uniqueness is carried by the monotonically
increasing module counter (the primary `crypto.randomUUID` branch is
non-deterministic and is not modelled). -/
def uuid (counter : Nat) : String :=
  "mem-" ++ natDecimal counter

/-- `InMemoryAdapter.findOne`: first record with the given id, if any. -/
def memFindOne (tables : Tables) (table id : String) : Option Rec :=
  (recsOf tables table).find? (fun r => r.id = id)

/-- `InMemoryAdapter.create`: build the record from the payload plus a
fresh id and `created_at`/`updated_at` set to `now`
(`new Date().toISOString()`), and push it onto the table.  Returns the
record, the new store, and the advanced uuid counter. -/
def memCreate (now : String) (tables : Tables) (cnt : Nat)
    (table : String) (data : List (String × Json)) : Rec × Tables × Nat :=
  let record : Rec := ⟨uuid cnt, some now, some now, data⟩
  (record, mapSet tables table (recsOf tables table ++ [record]), cnt + 1)

/-- `InMemoryAdapter.createMany`:
`Promise.all(items.map(d => this.create(table, d)))`.  The `create`
bodies contain no suspension point, so under the runtime's cooperative
scheduling they execute sequentially in list order during the `map`,
and `Promise.all` returns their results in input order; the embedding
is therefore a left-to-right fold of `memCreate`. -/
def memCreateMany (now : String) (tables : Tables) (cnt : Nat)
    (table : String) : List (List (String × Json)) → List Rec × Tables × Nat
  | [] => ([], tables, cnt)
  | d :: ds =>
    let (r, tables1, cnt1) := memCreate now tables cnt table d
    let (rs, tables2, cnt2) := memCreateMany now tables1 cnt1 table ds
    (r :: rs, tables2, cnt2)

/-- `InMemoryAdapter.delete`: find the first record with the id; throw
`DataError('Not found: ' + id, 'NOT_FOUND')` when there is none, else
splice it out. -/
def memDelete (tables : Tables) (table id : String) :
    Except AppError Tables :=
  let records := recsOf tables table
  if records.any (fun r => r.id = id) then
    .ok (mapSet tables table (records.eraseP (fun r => r.id = id)))
  else
    .error (.dataError ("Not found: " ++ id) .NOT_FOUND)

/-! ### DataService operations

Each `async` method of `DataService` validates its identifiers, then
awaits exactly one adapter call inside a `try` whose `catch` rethrows
`new DataError(err.message, 'ADAPTER')`.  The methods are embedded
generically over the outcome of that single adapter call
(`aRes : Except AppError α` — `.error e` models the adapter throwing
`e`), which covers every adapter; the in-memory compositions used by
the delete/findOne claims are defined below.  Every modelled thrown
value is an `Error` instance, so the `err instanceof Error`
fallback-message branch is unreachable and not represented. -/

/-- Outcome of one service method: its result, the cache afterwards,
and whether the adapter call was reached. -/
structure OpOut (α : Type) where
  result : Except AppError α
  cache : Cache
  invoked : Bool

/-- The `catch` block common to all table methods:
`new DataError(err.message, 'ADAPTER')`. -/
def wrapErr (e : AppError) : AppError :=
  .dataError (errMsg e) .ADAPTER

/-- `DataService.findMany` (validation and error-wrapping shell). -/
def svcFindMany (allowed : Option (List String)) (cache : Cache)
    (table : String) (aRes : Except AppError Page) : OpOut Page :=
  match validateTable allowed table with
  | .error e => ⟨.error e, cache, false⟩
  | .ok _ =>
    match aRes with
    | .ok p => ⟨.ok p, cache, true⟩
    | .error e => ⟨.error (wrapErr e), cache, true⟩

/-- `DataService.count` (validation and error-wrapping shell). -/
def svcCount (allowed : Option (List String)) (cache : Cache)
    (table : String) (aRes : Except AppError Nat) : OpOut Nat :=
  match validateTable allowed table with
  | .error e => ⟨.error e, cache, false⟩
  | .ok _ =>
    match aRes with
    | .ok n => ⟨.ok n, cache, true⟩
    | .error e => ⟨.error (wrapErr e), cache, true⟩

/-- `DataService.create`: on adapter success, `invalidateTable`. -/
def svcCreate (allowed : Option (List String)) (cache : Cache)
    (table : String) (aRes : Except AppError Rec) : OpOut Rec :=
  match validateTable allowed table with
  | .error e => ⟨.error e, cache, false⟩
  | .ok _ =>
    match aRes with
    | .ok r => ⟨.ok r, invalidateTable cache table, true⟩
    | .error e => ⟨.error (wrapErr e), cache, true⟩

/-- `DataService.createMany`: on adapter success, `invalidateTable`. -/
def svcCreateMany (allowed : Option (List String)) (cache : Cache)
    (table : String) (aRes : Except AppError (List Rec)) :
    OpOut (List Rec) :=
  match validateTable allowed table with
  | .error e => ⟨.error e, cache, false⟩
  | .ok _ =>
    match aRes with
    | .ok rs => ⟨.ok rs, invalidateTable cache table, true⟩
    | .error e => ⟨.error (wrapErr e), cache, true⟩

/-- `DataService.deleteMany`: on adapter success, `invalidateTable`. -/
def svcDeleteMany (allowed : Option (List String)) (cache : Cache)
    (table : String) (aRes : Except AppError Nat) : OpOut Nat :=
  match validateTable allowed table with
  | .error e => ⟨.error e, cache, false⟩
  | .ok _ =>
    match aRes with
    | .ok n => ⟨.ok n, invalidateTable cache table, true⟩
    | .error e => ⟨.error (wrapErr e), cache, true⟩

/-- `DataService.update`: on adapter success, delete the `table:id`
cache entry. -/
def svcUpdate (allowed : Option (List String)) (cache : Cache)
    (table id : String) (aRes : Except AppError Rec) : OpOut Rec :=
  match validateTable allowed table with
  | .error e => ⟨.error e, cache, false⟩
  | .ok _ =>
    match validateId id with
    | .error e => ⟨.error e, cache, false⟩
    | .ok _ =>
      match aRes with
      | .ok r => ⟨.ok r, mapDelete cache (cacheKey table (some id)), true⟩
      | .error e => ⟨.error (wrapErr e), cache, true⟩

/-- `DataService.delete`: on adapter success, delete the `table:id`
cache entry. -/
def svcDelete (allowed : Option (List String)) (cache : Cache)
    (table id : String) (aRes : Except AppError Unit) : OpOut Unit :=
  match validateTable allowed table with
  | .error e => ⟨.error e, cache, false⟩
  | .ok _ =>
    match validateId id with
    | .error e => ⟨.error e, cache, false⟩
    | .ok _ =>
      match aRes with
      | .ok _ => ⟨.ok (), mapDelete cache (cacheKey table (some id)), true⟩
      | .error e => ⟨.error (wrapErr e), cache, true⟩

/-- `DataService.findOne`: validate, consult the cache (a record value
is always truthy, so a fresh hit returns without an adapter call), else
call the adapter, caching a non-null result. -/
def svcFindOne (allowed : Option (List String)) (ttl now : Nat)
    (cache : Cache) (table id : String)
    (aRes : Except AppError (Option Rec)) : OpOut (Option Rec) :=
  match validateTable allowed table with
  | .error e => ⟨.error e, cache, false⟩
  | .ok _ =>
    match validateId id with
    | .error e => ⟨.error e, cache, false⟩
    | .ok _ =>
      let key := cacheKey table (some id)
      let looked := getCached now cache key
      match looked.1 with
      | some r => ⟨.ok (some r), looked.2, false⟩
      | none =>
        match aRes with
        | .ok (some r) => ⟨.ok (some r), setCache ttl now looked.2 key r, true⟩
        | .ok none => ⟨.ok none, looked.2, true⟩
        | .error e => ⟨.error (wrapErr e), looked.2, true⟩

/-! ### DataService composed with the in-memory adapter -/

/-- The state of a `DataService` constructed over an `InMemoryAdapter`:
the adapter's table store, the service cache, and the adapter's uuid
counter. -/
structure MemSvcState where
  tables : Tables
  cache : Cache
  counter : Nat

/-- `DataService.delete` running against the in-memory adapter. -/
def svcDeleteMem (allowed : Option (List String)) (st : MemSvcState)
    (table id : String) : Except AppError Unit × MemSvcState :=
  match validateTable allowed table with
  | .error e => (.error e, st)
  | .ok _ =>
    match validateId id with
    | .error e => (.error e, st)
    | .ok _ =>
      match memDelete st.tables table id with
      | .error e => (.error (wrapErr e), st)
      | .ok tables' =>
        (.ok (), { st with tables := tables',
                           cache := mapDelete st.cache (cacheKey table (some id)) })

/-- `DataService.findOne` running against the in-memory adapter
(`InMemoryAdapter.findOne` never throws). -/
def svcFindOneMem (allowed : Option (List String)) (ttl now : Nat)
    (st : MemSvcState) (table id : String) :
    Except AppError (Option Rec) × MemSvcState :=
  match validateTable allowed table with
  | .error e => (.error e, st)
  | .ok _ =>
    match validateId id with
    | .error e => (.error e, st)
    | .ok _ =>
      let key := cacheKey table (some id)
      let looked := getCached now st.cache key
      match looked.1 with
      | some r => (.ok (some r), { st with cache := looked.2 })
      | none =>
        match memFindOne st.tables table id with
        | some r => (.ok (some r), { st with cache := setCache ttl now looked.2 key r })
        | none => (.ok none, { st with cache := looked.2 })

/-! ### `JSON.parse` (used by the filter syntax of the HTTP surface)

A fuel-structured recursive-descent parser for the JSON grammar
accepted by `JSON.parse` (ECMA-404): optional whitespace around a
single value, values being `null`, booleans, numbers, strings with
escapes, arrays, and objects.  `none` models `JSON.parse` throwing. -/

/-- JSON insignificant whitespace. -/
def jsonWsChar (c : Char) : Bool :=
  c = ' ' || c = '\t' || c = '\n' || c = '\r'

/-- Skip leading JSON whitespace. -/
def skipWs : List Char → List Char
  | [] => []
  | c :: rest => if jsonWsChar c then skipWs rest else c :: rest

/-- Value of a hexadecimal digit. -/
def hexVal? (c : Char) : Option Nat :=
  if '0' ≤ c ∧ c ≤ '9' then some (c.toNat - 48)
  else if 'a' ≤ c ∧ c ≤ 'f' then some (c.toNat - 87)
  else if 'A' ≤ c ∧ c ≤ 'F' then some (c.toNat - 55)
  else none

/-- Single-character string escapes. -/
def escChar? : Char → Option Char
  | '"' => some '"'
  | '\\' => some '\\'
  | '/' => some '/'
  | 'b' => some (Char.ofNat 8)
  | 'f' => some (Char.ofNat 12)
  | 'n' => some '\n'
  | 'r' => some '\r'
  | 't' => some '\t'
  | _ => none

/-- Body of a JSON string after the opening quote: literal characters
(controls below U+0020 are rejected), `\\`-escapes, and `\\uXXXX`. -/
def parseStringBody : Nat → List Char → Option (String × List Char)
  | 0, _ => none
  | fuel + 1, cs =>
    match cs with
    | [] => none
    | '"' :: rest => some ("", rest)
    | '\\' :: rest =>
      match rest with
      | [] => none
      | e :: rest2 =>
        if e = 'u' then
          match rest2 with
          | h1 :: h2 :: h3 :: h4 :: rest3 =>
            match hexVal? h1, hexVal? h2, hexVal? h3, hexVal? h4 with
            | some a, some b, some c, some d =>
              let code := ((a * 16 + b) * 16 + c) * 16 + d
              (parseStringBody fuel rest3).map
                (fun p => (String.singleton (Char.ofNat code) ++ p.1, p.2))
            | _, _, _, _ => none
          | _ => none
        else
          match escChar? e with
          | some c =>
            (parseStringBody fuel rest2).map
              (fun p => (String.singleton c ++ p.1, p.2))
          | none => none
    | c :: rest =>
      if c.toNat < 32 then none
      else
        (parseStringBody fuel rest).map
          (fun p => (String.singleton c ++ p.1, p.2))

/-- Numeric value of a decimal digit string. -/
def digitsToNat (ds : List Char) : Nat :=
  ds.foldl (fun acc c => acc * 10 + (c.toNat - 48)) 0

/-- Integer part of a JSON number: `0` (not followed by another digit)
or a nonzero digit followed by digits. -/
def parseIntPart : List Char → Option (List Char × List Char)
  | [] => none
  | c :: rest =>
    if c = '0' then
      match rest with
      | d :: _ => if d.isDigit then none else some (['0'], rest)
      | [] => some (['0'], [])
    else if c.isDigit then
      some (c :: rest.takeWhile Char.isDigit, rest.dropWhile Char.isDigit)
    else none

/-- Optional fraction part: `.digits+` or nothing. -/
def parseFracPart : List Char → Option (List Char × List Char)
  | '.' :: rest =>
    let ds := rest.takeWhile Char.isDigit
    if ds.isEmpty then none else some (ds, rest.dropWhile Char.isDigit)
  | cs => some ([], cs)

/-- Optional exponent part: `(e|E)(+|-)?digits+` or nothing; yields the
signed exponent. -/
def parseExpPart : List Char → Option (Int × List Char)
  | [] => some (0, [])
  | c :: rest =>
    if c = 'e' ∨ c = 'E' then
      let signed : Bool × List Char :=
        match rest with
        | '+' :: r => (false, r)
        | '-' :: r => (true, r)
        | _ => (false, rest)
      let ds := signed.2.takeWhile Char.isDigit
      if ds.isEmpty then none
      else
        let mag : Int := (digitsToNat ds : Nat)
        some (if signed.1 then -mag else mag, signed.2.dropWhile Char.isDigit)
    else some (0, c :: rest)

/-- A JSON number token `-? int frac? exp?`, yielding its exact decimal
value as mantissa × 10^exp10. -/
def parseNumber (cs : List Char) : Option (Json × List Char) :=
  let signed : Bool × List Char :=
    match cs with
    | '-' :: r => (true, r)
    | _ => (false, cs)
  match parseIntPart signed.2 with
  | none => none
  | some (intDs, cs2) =>
    match parseFracPart cs2 with
    | none => none
    | some (fracDs, cs3) =>
      match parseExpPart cs3 with
      | none => none
      | some (expVal, cs4) =>
        let mag : Int := (digitsToNat (intDs ++ fracDs) : Nat)
        let mantissa : Int := if signed.1 then -mag else mag
        some (.num mantissa (expVal - fracDs.length), cs4)

mutual

/-- A JSON value (fuel decreases at each nested value). -/
def parseValue : Nat → List Char → Option (Json × List Char)
  | 0, _ => none
  | fuel + 1, cs =>
    match skipWs cs with
    | [] => none
    | 'n' :: rest =>
      match rest with
      | 'u' :: 'l' :: 'l' :: r => some (.null, r)
      | _ => none
    | 't' :: rest =>
      match rest with
      | 'r' :: 'u' :: 'e' :: r => some (.bool true, r)
      | _ => none
    | 'f' :: rest =>
      match rest with
      | 'a' :: 'l' :: 's' :: 'e' :: r => some (.bool false, r)
      | _ => none
    | '"' :: rest =>
      match parseStringBody (rest.length + 1) rest with
      | some (s, r) => some (.str s, r)
      | none => none
    | '[' :: rest =>
      match skipWs rest with
      | ']' :: r => some (.arr [], r)
      | cs1 =>
        match parseElems fuel cs1 with
        | some (vs, r) => some (.arr vs, r)
        | none => none
    | '{' :: rest =>
      match skipWs rest with
      | '}' :: r => some (.obj [], r)
      | cs1 =>
        match parseMembers fuel cs1 with
        | some (ms, r) => some (.obj ms, r)
        | none => none
    | other => parseNumber other

/-- One-or-more array elements up to the closing bracket. -/
def parseElems : Nat → List Char → Option (List Json × List Char)
  | 0, _ => none
  | fuel + 1, cs =>
    match parseValue fuel cs with
    | none => none
    | some (v, cs1) =>
      match skipWs cs1 with
      | ',' :: r =>
        match parseElems fuel r with
        | some (vs, cs2) => some (v :: vs, cs2)
        | none => none
      | ']' :: r => some ([v], r)
      | _ => none

/-- One-or-more object members up to the closing brace. -/
def parseMembers : Nat → List Char →
    Option (List (String × Json) × List Char)
  | 0, _ => none
  | fuel + 1, cs =>
    match skipWs cs with
    | '"' :: rest =>
      match parseStringBody (rest.length + 1) rest with
      | none => none
      | some (k, r1) =>
        match skipWs r1 with
        | ':' :: r2 =>
          match parseValue fuel r2 with
          | none => none
          | some (v, r3) =>
            match skipWs r3 with
            | ',' :: r4 =>
              match parseMembers fuel r4 with
              | some (ms, r5) => some ((k, v) :: ms, r5)
              | none => none
            | '}' :: r4 => some ([(k, v)], r4)
            | _ => none
        | _ => none
    | _ => none

end

/-- `JSON.parse s` (`none` models a throw).  The fuel bound exceeds any
possible nesting depth, since every nested value consumes at least one
input character. -/
def jsonParse (s : String) : Option Json :=
  match parseValue (2 * s.data.length + 2) s.data with
  | some (v, rest) =>
    match skipWs rest with
    | [] => some v
    | _ => none
  | none => none

/-! ### HTTP query parsing (`packages/api/src/routes/resources.ts`) -/

/-- A parsed filter triple (`QueryFilter`); the `value` is either the
JSON value the segment parsed to or the literal string. -/
structure QueryFilter where
  field : String
  operator : String
  value : Json

/-- The value branch of `parseFilters`:
`try { JSON.parse(value) } catch { value }`. -/
def filterValue (v : String) : Json :=
  match jsonParse v with
  | some j => j
  | none => .str v

/-- One iteration of `parseFilters`: split on `:`, demand at least three
segments (else throw a plain `Error` naming the input), re-join the
remaining segments as the value. -/
def parseFilter (s : String) : Except AppError QueryFilter :=
  let parts := jsSplit ':' s
  if parts.length < 3 then
    .error (.plainError ("Invalid filter format: " ++ s
      ++ " (expected field:op:value)"))
  else
    .ok ⟨parts.headD "", (parts.drop 1).headD "",
      filterValue (jsJoin ":" (parts.drop 2))⟩

/-- `parseFilters` over the normalized list of raw filter strings. -/
def parseFilters (items : List String) :
    Except AppError (List QueryFilter) :=
  items.mapM parseFilter

/-- A parsed order directive. -/
structure OrderBy where
  field : String
  direction : String

/-- One iteration of `parseOrderBy`:
`const [field, dir] = s.split(':')`, direction `desc` exactly when
`dir === 'desc'`. -/
def parseOrderByOne (s : String) : OrderBy :=
  let parts := jsSplit ':' s
  ⟨parts.headD "", if parts[1]? = some "desc" then "desc" else "asc"⟩

/-- `parseOrderBy` over the normalized list of raw directives. -/
def parseOrderBy (items : List String) : List OrderBy :=
  items.map parseOrderByOne

/-! ## Helper lemmas -/

theorem mapGet_nil (k : String) : mapGet ([] : List (String × α)) k = none := rfl

theorem mapGet_cons (kv : String × α) (m : List (String × α)) (k : String) :
    mapGet (kv :: m) k = if kv.1 = k then some kv.2 else mapGet m k := by
  by_cases h : kv.1 = k <;> simp [mapGet, List.find?_cons, h]

theorem mapGet_filter_of_false (q : String × α → Bool) (m : List (String × α))
    (k : String) (h : ∀ v, q (k, v) = false) :
    mapGet (m.filter q) k = none := by
  induction m with
  | nil => rfl
  | cons kv rest ih =>
    obtain ⟨a, b⟩ := kv
    rw [List.filter_cons]
    by_cases hq : q (a, b) = true
    · rw [if_pos hq, mapGet_cons]
      have hak : a ≠ k := by
        intro hak; subst hak; rw [h b] at hq; cases hq
      rw [if_neg hak]; exact ih
    · rw [if_neg (by simpa using hq)]; exact ih

theorem mapGet_filter_of_true (q : String × α → Bool) (m : List (String × α))
    (k : String) (h : ∀ v, q (k, v) = true) :
    mapGet (m.filter q) k = mapGet m k := by
  induction m with
  | nil => rfl
  | cons kv rest ih =>
    obtain ⟨a, b⟩ := kv
    rw [List.filter_cons]
    by_cases hak : a = k
    · subst hak
      rw [if_pos (h b), mapGet_cons, mapGet_cons, if_pos rfl, if_pos rfl]
    · by_cases hq : q (a, b) = true
      · rw [if_pos hq, mapGet_cons, mapGet_cons, if_neg hak, if_neg hak]; exact ih
      · rw [if_neg (by simpa using hq), mapGet_cons, if_neg hak]; exact ih

theorem mapGet_mapDelete_self (m : List (String × α)) (k : String) :
    mapGet (mapDelete m k) k = none :=
  mapGet_filter_of_false _ m k (by intro v; simp)

theorem mapGet_mapDelete_ne (m : List (String × α)) (k k' : String)
    (h : k' ≠ k) : mapGet (mapDelete m k) k' = mapGet m k' :=
  mapGet_filter_of_true _ m k' (by intro v; simp [h])

theorem mapGet_invalidateTable_startsWith (cache : Cache) (table key : String)
    (h : (table ++ ":").data.isPrefixOf key.data = true) :
    mapGet (invalidateTable cache table) key = none :=
  mapGet_filter_of_false _ cache key (by intro v; simp at h; simp [h])

theorem mapGet_invalidateTable_not_startsWith (cache : Cache) (table key : String)
    (h : (table ++ ":").data.isPrefixOf key.data = false) :
    mapGet (invalidateTable cache table) key = mapGet cache key :=
  mapGet_filter_of_true _ cache key (by intro v; simp at h; simp [h])

theorem mapGet_map_replace (m : List (String × α)) (k : String) (v : α)
    (h : (m.find? (fun kv => kv.1 = k)).isSome = true) :
    mapGet (m.map (fun kv => if kv.1 = k then (k, v) else kv)) k = some v := by
  induction m with
  | nil => simp at h
  | cons kv rest ih =>
    obtain ⟨a, b⟩ := kv
    by_cases hak : a = k
    · subst hak; simp [mapGet_cons]
    · rw [List.map_cons]
      have h1 : (if (a, b).1 = k then (k, v) else (a, b)) = (a, b) := by
        simp [hak]
      rw [h1, mapGet_cons, if_neg hak]
      exact ih (by simpa [List.find?_cons, hak] using h)

theorem mapGet_append_single (m : List (String × α)) (k : String) (v : α)
    (h : mapGet m k = none) :
    mapGet (m ++ [(k, v)]) k = some v := by
  induction m with
  | nil => simp [mapGet_cons]
  | cons kv rest ih =>
    obtain ⟨a, b⟩ := kv
    rw [mapGet_cons] at h
    by_cases hak : a = k
    · rw [if_pos hak] at h; cases h
    · rw [if_neg hak] at h
      rw [List.cons_append, mapGet_cons, if_neg hak]
      exact ih h

theorem mapGet_mapSet_self (m : List (String × α)) (k : String) (v : α) :
    mapGet (mapSet m k v) k = some v := by
  unfold mapSet
  by_cases h : (m.find? (fun kv => kv.1 = k)).isSome = true
  · rw [if_pos h]; exact mapGet_map_replace m k v h
  · rw [if_neg h]
    apply mapGet_append_single
    unfold mapGet
    cases hf : m.find? (fun kv => kv.1 = k) with
    | none => rfl
    | some kv => rw [hf] at h; simp at h

theorem mapGet_map_replace_ne (m : List (String × α)) (k k' : String) (v : α)
    (h : k' ≠ k) :
    mapGet (m.map (fun kv => if kv.1 = k then (k, v) else kv)) k' = mapGet m k' := by
  induction m with
  | nil => rfl
  | cons kv rest ih =>
    obtain ⟨a, b⟩ := kv
    rw [List.map_cons]
    by_cases hak : a = k
    · subst hak
      have h1 : (if (a, b).1 = a then (a, v) else (a, b)) = (a, v) := by simp
      rw [h1, mapGet_cons, mapGet_cons]
      rw [if_neg (fun hh => h (Eq.symm hh)), if_neg (fun hh => h (Eq.symm hh))]
      exact ih
    · have h1 : (if (a, b).1 = k then (k, v) else (a, b)) = (a, b) := by
        simp [hak]
      rw [h1, mapGet_cons, mapGet_cons]
      by_cases hak' : a = k'
      · rw [if_pos hak', if_pos hak']
      · rw [if_neg hak', if_neg hak']; exact ih

theorem mapGet_append_single_ne (m : List (String × α)) (k k' : String) (v : α)
    (h : k' ≠ k) : mapGet (m ++ [(k, v)]) k' = mapGet m k' := by
  induction m with
  | nil =>
    rw [List.nil_append, mapGet_cons, if_neg (fun hh => h (Eq.symm hh))]
  | cons kv rest ih =>
    rw [List.cons_append, mapGet_cons, mapGet_cons]
    by_cases hk : kv.1 = k'
    · rw [if_pos hk, if_pos hk]
    · rw [if_neg hk, if_neg hk]; exact ih

theorem mapGet_mapSet_ne (m : List (String × α)) (k k' : String) (v : α)
    (h : k' ≠ k) : mapGet (mapSet m k v) k' = mapGet m k' := by
  unfold mapSet
  split
  · exact mapGet_map_replace_ne m k k' v h
  · exact mapGet_append_single_ne m k k' v h

theorem find?_eraseP_of_countP_le_one (p : α → Bool) (l : List α)
    (h : l.countP p ≤ 1) : (l.eraseP p).find? p = none := by
  induction l with
  | nil => rfl
  | cons a l ih =>
    by_cases hp : p a = true
    · rw [List.eraseP_cons_of_pos hp, List.find?_eq_none]
      intro x hx hpx
      have hc : (a :: l).countP p = l.countP p + 1 := List.countP_cons_of_pos _ _ hp
      have h0 : l.countP p = 0 := by omega
      exact (List.countP_eq_zero.mp h0 x hx) hpx
    · rw [List.eraseP_cons_of_neg hp, List.find?_cons_of_neg _ hp]
      apply ih
      have hc : (a :: l).countP p = l.countP p := List.countP_cons_of_neg _ _ hp
      omega

theorem digitsToNat_append (xs : List Char) (c : Char) :
    digitsToNat (xs ++ [c]) = 10 * digitsToNat xs + (c.toNat - 48) := by
  simp only [digitsToNat, List.foldl_append, List.foldl_cons, List.foldl_nil]
  omega

theorem digitChar_toNat (d : Nat) (h : d < 10) :
    (digitChar d).toNat - 48 = d := by
  interval_cases d <;> rfl

theorem natDecimalAux_val : ∀ (fuel n : Nat), n < 10 ^ fuel →
    digitsToNat (natDecimalAux fuel n) = n := by
  intro fuel
  induction fuel with
  | zero =>
    intro n h
    have : n = 0 := by simpa using Nat.lt_one_iff.mp (by simpa using h)
    subst this; rfl
  | succ fuel ih =>
    intro n h
    show digitsToNat (natDecimalAux (fuel + 1) n) = n
    rw [natDecimalAux]
    by_cases h10 : n < 10
    · rw [if_pos h10]
      simpa [digitsToNat] using digitChar_toNat n h10
    · rw [if_neg h10, digitsToNat_append]
      have hdiv : n / 10 < 10 ^ fuel := by
        apply Nat.div_lt_of_lt_mul
        rw [pow_succ] at h
        omega
      rw [ih (n / 10) hdiv, digitChar_toNat (n % 10) (Nat.mod_lt _ (by norm_num))]
      omega

theorem natDecimal_data_inj {m n : Nat}
    (h : natDecimalAux (m + 1) m = natDecimalAux (n + 1) n) : m = n := by
  have hm : m < 10 ^ (m + 1) :=
    lt_of_lt_of_le (Nat.lt_pow_self (by norm_num) m)
      (Nat.pow_le_pow_right (by norm_num) (Nat.le_succ m))
  have hn : n < 10 ^ (n + 1) :=
    lt_of_lt_of_le (Nat.lt_pow_self (by norm_num) n)
      (Nat.pow_le_pow_right (by norm_num) (Nat.le_succ n))
  calc m = digitsToNat (natDecimalAux (m + 1) m) := (natDecimalAux_val _ m hm).symm
    _ = digitsToNat (natDecimalAux (n + 1) n) := by rw [h]
    _ = n := natDecimalAux_val _ n hn

theorem uuid_inj {m n : Nat} (h : uuid m = uuid n) : m = n := by
  apply natDecimal_data_inj
  have hd := congrArg String.data h
  simp only [uuid, natDecimal, String.data_append] at hd
  exact List.append_cancel_left hd

theorem validateTable_error_code (allowed : Option (List String))
    (table : String) (e : AppError) :
    validateTable allowed table = .error e → errorHasCode e .VALIDATION = true := by
  unfold validateTable
  split
  · intro h
    injection h with h'
    subst h'; rfl
  · split
    · split
      · intro h; cases h
      · intro h
        injection h with h'
        subst h'; rfl
    · intro h; cases h

theorem validateId_error_code (id : String) (e : AppError) :
    validateId id = .error e → errorHasCode e .VALIDATION = true := by
  unfold validateId
  split
  · intro h
    injection h with h'
    subst h'; rfl
  · intro h; cases h

theorem validateTable_cases (allowed : Option (List String)) (table : String) :
    validateTable allowed table = .ok () ∨
      ∃ m, validateTable allowed table = .error (.dataError m .VALIDATION) := by
  unfold validateTable
  split
  · right; exact ⟨_, rfl⟩
  · split
    · split
      · left; rfl
      · right; exact ⟨_, rfl⟩
    · left; rfl

theorem tableNameOk_iff (s : String) :
    tableNameOk s = true ↔ specTablePattern s := by
  unfold tableNameOk specTablePattern
  cases s.data with
  | nil => simp
  | cons c rest =>
    simp [List.all_eq_true, Bool.and_eq_true, Bool.or_eq_true,
      decide_eq_true_iff, and_assoc]

theorem validateTable_ok_iff (allowed : Option (List String)) (s : String) :
    validateTable allowed s = .ok () ↔
      (specTablePattern s ∧ specAllowListOk allowed s) := by
  unfold validateTable specAllowListOk
  split
  · rename_i hbad
    constructor
    · intro h; cases h
    · intro ⟨hp, _⟩
      exact absurd ((tableNameOk_iff s).mpr hp) (by simpa using hbad)
  · rename_i hok
    have hp : specTablePattern s := (tableNameOk_iff s).mp (by simpa using hok)
    split
    · rename_i ts
      split
      · rename_i hmem
        simp only [true_iff]
        exact ⟨hp, fun ts' hts' => by injection hts' with h'; subst h'; exact hmem⟩
      · rename_i hmem
        constructor
        · intro h; cases h
        · intro ⟨_, hall⟩
          exact absurd (hall ts rfl) hmem
    · simp only [true_iff]
      exact ⟨hp, fun ts' hts' => by cases hts'⟩

theorem validateId_ok_iff (id : String) :
    validateId id = .ok () ↔ idOk id = true := by
  unfold validateId
  split
  · rename_i hbad
    constructor
    · intro h; cases h
    · intro h; exact absurd h (by simpa using hbad)
  · rename_i hok
    simp only [true_iff]
    simpa using hok

theorem memFindOne_none_not_any (tables : Tables) (table id : String)
    (h : memFindOne tables table id = none) :
    (recsOf tables table).any (fun r => r.id = id) = false := by
  unfold memFindOne at h
  rw [List.find?_eq_none] at h
  rw [List.any_eq_false]
  exact fun x hx => h x hx

theorem memFindOne_some_any (tables : Tables) (table id : String) (r : Rec)
    (h : memFindOne tables table id = some r) :
    (recsOf tables table).any (fun r => r.id = id) = true := by
  unfold memFindOne at h
  rw [List.any_eq_true]
  have hm := List.mem_of_find?_eq_some h
  have hp := List.find?_some h
  exact ⟨r, hm, hp⟩

/-! ## Claim theorems -/

/-- Claim C1: for every `findMany` call on either adapter, the returned
`PaginatedResult`'s `hasMore` field is true if and only if `offset`
plus the number of records actually returned in the page is strictly
less than the total matching count.  (For the in-memory adapter, whose
source computes `offset + limit < total`, the slice arithmetic makes
the two formulas coincide; for the Supabase adapter the formula is the
claim verbatim.) -/
theorem claim1_findMany_hasMore :
    ∀ (records rows : List Rec) (count? limit? offset? : Option Nat),
      ((memFindMany records limit? offset?).hasMore = true ↔
        (memFindMany records limit? offset?).offset
          + (memFindMany records limit? offset?).data.length
          < (memFindMany records limit? offset?).count) ∧
      ((supaFindMany rows count? limit? offset?).hasMore = true ↔
        (supaFindMany rows count? limit? offset?).offset
          + (supaFindMany rows count? limit? offset?).data.length
          < (supaFindMany rows count? limit? offset?).count) := by
  intro records rows count? limit? offset?
  constructor
  · simp only [memFindMany, decide_eq_true_iff, List.length_take,
      List.length_drop]
    omega
  · simp only [supaFindMany, decide_eq_true_iff]

/-- Claim C3: a cached value is never returned once the current time is
past its absolute expiry timestamp, and a lookup that finds an expired
entry deletes it from the cache and reports a miss. -/
theorem claim3_cache_expiry :
    ∀ (now : Nat) (cache : Cache) (key : String),
      (∀ e, mapGet cache key = some e → now > e.expiresAt →
        getCached now cache key = (none, mapDelete cache key)) ∧
      (∀ v c', getCached now cache key = (some v, c') →
        ∃ e, mapGet cache key = some e ∧ v = e.data ∧
          now ≤ e.expiresAt ∧ c' = cache) := by
  intro now cache key
  constructor
  · intro e he hexp
    simp only [getCached, he, if_pos hexp]
  · intro v c' h
    cases he : mapGet cache key with
    | none => simp only [getCached, he] at h; cases h
    | some e =>
      simp only [getCached, he] at h
      by_cases hexp : now > e.expiresAt
      · rw [if_pos hexp] at h; cases h
      · rw [if_neg hexp] at h
        injection h with h1 h2
        injection h1 with h1
        exact ⟨e, rfl, h1.symm, by omega, h2.symm⟩

/-- Claim C3 witness: at time 10 an entry that expired at 5 is evicted
and the lookup misses. -/
theorem claim3_witness :
    getCached 10 [("users:1", ⟨⟨"1", none, none, []⟩, 5⟩)] "users:1"
      = (none, mapDelete [("users:1", ⟨⟨"1", none, none, []⟩, 5⟩)] "users:1") :=
  (claim3_cache_expiry 10 [("users:1", ⟨⟨"1", none, none, []⟩, 5⟩)] "users:1").1
    ⟨⟨"1", none, none, []⟩, 5⟩ rfl (by decide)

/-- Claim C9: `parseOrderBy` yields one entry per input in order; an
entry's field is the first `:`-segment and its direction is `desc`
exactly when the second segment is the string `desc`, `asc` in every
other case (missing direction included); in particular
`parseOrderBy ["name:desc", "age"]` yields
`[{name, desc}, {age, asc}]`. -/
theorem claim9_parseOrderBy :
    (∀ items : List String, parseOrderBy items = items.map parseOrderByOne) ∧
    (∀ s : String,
      (parseOrderByOne s).field = (jsSplit ':' s).headD "" ∧
      ((parseOrderByOne s).direction = "desc" ↔
        (jsSplit ':' s)[1]? = some "desc") ∧
      ((parseOrderByOne s).direction = "desc" ∨
        (parseOrderByOne s).direction = "asc")) ∧
    parseOrderBy ["name:desc", "age"] = [⟨"name", "desc"⟩, ⟨"age", "asc"⟩] := by
  refine ⟨fun _ => rfl, fun s => ?_, rfl⟩
  refine ⟨rfl, ?_, ?_⟩
  · show (if (jsSplit ':' s)[1]? = some "desc" then "desc" else "asc") = "desc" ↔ _
    by_cases h : (jsSplit ':' s)[1]? = some "desc"
    · rw [if_pos h]; exact iff_of_true rfl h
    · rw [if_neg h]; exact iff_of_false (by decide) h
  · show (if (jsSplit ':' s)[1]? = some "desc" then "desc" else "asc") = "desc"
        ∨ (if (jsSplit ':' s)[1]? = some "desc" then "desc" else "asc") = "asc"
    by_cases h : (jsSplit ':' s)[1]? = some "desc"
    · rw [if_pos h]; left; rfl
    · rw [if_neg h]; right; rfl

/-- Claim C8: `validateTable` accepts exactly the strings that match
the pattern (a letter or underscore followed by up to 62 letters,
digits, or underscores) and, when an allow-list is configured, are
members of it; every other string is rejected with a `DataError` of
code VALIDATION. -/
theorem claim8_validateTable :
    ∀ (allowed : Option (List String)) (s : String),
      (validateTable allowed s = .ok () ↔
        specTablePattern s ∧ specAllowListOk allowed s) ∧
      (validateTable allowed s = .ok () ∨
        ∃ m, validateTable allowed s = .error (.dataError m .VALIDATION)) :=
  fun allowed s => ⟨validateTable_ok_iff allowed s, validateTable_cases allowed s⟩

/-- Claim C8 witness: `users` passes the pattern and, with no
allow-list configured, is accepted. -/
theorem claim8_witness :
    specTablePattern "users" ∧ specAllowListOk none "users" :=
  (claim8_validateTable none "users").1.mp rfl

/-- Claim C6: for every raw filter string with at least three
colon-separated segments, the parsed filter's value is the JSON parse
of the (re-joined) value segment when that segment is valid JSON and
the literal string otherwise; in particular `"age:gte:18"` parses to
value 18 as a number and `"name:eq:bob"` to value `"bob"` as a
string. -/
theorem claim6_filter_value :
    (∀ s : String, 3 ≤ (jsSplit ':' s).length →
      parseFilter s = .ok ⟨(jsSplit ':' s).headD "",
        ((jsSplit ':' s).drop 1).headD "",
        filterValue (jsJoin ":" ((jsSplit ':' s).drop 2))⟩) ∧
    (∀ v : String, jsonParse v = none → filterValue v = .str v) ∧
    (∀ v j, jsonParse v = some j → filterValue v = j) ∧
    parseFilter "age:gte:18" = .ok ⟨"age", "gte", .num 18 0⟩ ∧
    parseFilter "name:eq:bob" = .ok ⟨"name", "eq", .str "bob"⟩ ∧
    jsonParse "18" = some (.num 18 0) ∧
    jsonParse "bob" = none := by
  refine ⟨?_, ?_, ?_, rfl, rfl, rfl, rfl⟩
  · intro s h
    unfold parseFilter
    rw [if_neg (by omega)]
  · intro v h
    unfold filterValue
    rw [h]
  · intro v j h
    unfold filterValue
    rw [h]

/-- Claim C6 witness: the general statement applied at
`"age:gte:18"`. -/
theorem claim6_witness :
    parseFilter "age:gte:18" = .ok ⟨(jsSplit ':' "age:gte:18").headD "",
      ((jsSplit ':' "age:gte:18").drop 1).headD "",
      filterValue (jsJoin ":" ((jsSplit ':' "age:gte:18").drop 2))⟩ :=
  claim6_filter_value.1 "age:gte:18" (by decide)

/-- Claim C7 counterexample: `parseFilter "ab"` (fewer than three
segments) throws a plain `Error`; the thrown value carries no
`DataError` code at all, in particular not VALIDATION. -/
theorem claim7_counterexample :
    parseFilter "ab" = .error (.plainError
      "Invalid filter format: ab (expected field:op:value)") ∧
    errorHasCode (.plainError
        "Invalid filter format: ab (expected field:op:value)") .VALIDATION
      = false :=
  ⟨rfl, rfl⟩

/-- Claim C7 (amended): for every raw filter string with fewer than
three colon-separated segments, filter parsing fails with an error
whose message names the offending input; the thrown value is a plain
`Error`, not a `DataError` carrying code VALIDATION (it carries no
taxonomy code at all). -/
theorem claim7_malformed_filter :
    ∀ s : String, (jsSplit ':' s).length < 3 →
      parseFilter s = .error (.plainError
        ("Invalid filter format: " ++ s ++ " (expected field:op:value)")) ∧
      (∀ c : ErrCode, errorHasCode (.plainError
        ("Invalid filter format: " ++ s ++ " (expected field:op:value)")) c
          = false) := by
  intro s h
  refine ⟨?_, fun c => rfl⟩
  unfold parseFilter
  rw [if_pos h]

/-- Claim C7 witness: the amended claim at `"ab"`. -/
theorem claim7_witness :
    parseFilter "ab" = .error (.plainError
      "Invalid filter format: ab (expected field:op:value)") :=
  (claim7_malformed_filter "ab" (by decide)).1

/-- Claim C4: a successful `create`, `createMany`, or `deleteMany` on a
table removes every cache entry whose key starts with the table name
followed by a colon; a successful `update` or `delete` of a specific
id removes exactly the `table:id` cache entry and leaves every other
entry unchanged. -/
theorem claim4_cache_invalidation :
    ∀ (allowed : Option (List String)) (cache : Cache) (table id key : String)
      (rc : Except AppError Rec) (rcs : Except AppError (List Rec))
      (nres : Except AppError Nat) (u : Except AppError Unit)
      (r : Rec) (rs : List Rec) (n : Nat),
      ((svcCreate allowed cache table rc).result = .ok r →
        (table ++ ":").data.isPrefixOf key.data = true →
          mapGet (svcCreate allowed cache table rc).cache key = none) ∧
      ((svcCreateMany allowed cache table rcs).result = .ok rs →
        (table ++ ":").data.isPrefixOf key.data = true →
          mapGet (svcCreateMany allowed cache table rcs).cache key = none) ∧
      ((svcDeleteMany allowed cache table nres).result = .ok n →
        (table ++ ":").data.isPrefixOf key.data = true →
          mapGet (svcDeleteMany allowed cache table nres).cache key = none) ∧
      ((svcUpdate allowed cache table id rc).result = .ok r →
        mapGet (svcUpdate allowed cache table id rc).cache
            (cacheKey table (some id)) = none ∧
        (key ≠ cacheKey table (some id) →
          mapGet (svcUpdate allowed cache table id rc).cache key
            = mapGet cache key)) ∧
      ((svcDelete allowed cache table id u).result = .ok () →
        mapGet (svcDelete allowed cache table id u).cache
            (cacheKey table (some id)) = none ∧
        (key ≠ cacheKey table (some id) →
          mapGet (svcDelete allowed cache table id u).cache key
            = mapGet cache key)) := by
  intro allowed cache table id key rc rcs nres u r rs n
  refine ⟨?_, ?_, ?_, ?_, ?_⟩
  · intro hok hpre
    simp only [svcCreate] at hok ⊢
    cases hv : validateTable allowed table with
    | error e => simp only [hv] at hok; cases hok
    | ok x =>
      cases x
      simp only [hv] at hok ⊢
      cases rc with
      | error e => simp only [] at hok; cases hok
      | ok r' => exact mapGet_invalidateTable_startsWith cache table key hpre
  · intro hok hpre
    simp only [svcCreateMany] at hok ⊢
    cases hv : validateTable allowed table with
    | error e => simp only [hv] at hok; cases hok
    | ok x =>
      cases x
      simp only [hv] at hok ⊢
      cases rcs with
      | error e => simp only [] at hok; cases hok
      | ok rs' => exact mapGet_invalidateTable_startsWith cache table key hpre
  · intro hok hpre
    simp only [svcDeleteMany] at hok ⊢
    cases hv : validateTable allowed table with
    | error e => simp only [hv] at hok; cases hok
    | ok x =>
      cases x
      simp only [hv] at hok ⊢
      cases nres with
      | error e => simp only [] at hok; cases hok
      | ok n' => exact mapGet_invalidateTable_startsWith cache table key hpre
  · intro hok
    simp only [svcUpdate] at hok ⊢
    cases hv : validateTable allowed table with
    | error e => simp only [hv] at hok; cases hok
    | ok x =>
      cases x
      simp only [hv] at hok ⊢
      cases hi : validateId id with
      | error e => simp only [hi] at hok; cases hok
      | ok y =>
        cases y
        simp only [hi] at hok ⊢
        cases rc with
        | error e => simp only [] at hok; cases hok
        | ok r' =>
          exact ⟨mapGet_mapDelete_self cache (cacheKey table (some id)),
            fun hne => mapGet_mapDelete_ne cache (cacheKey table (some id)) key hne⟩
  · intro hok
    simp only [svcDelete] at hok ⊢
    cases hv : validateTable allowed table with
    | error e => simp only [hv] at hok; cases hok
    | ok x =>
      cases x
      simp only [hv] at hok ⊢
      cases hi : validateId id with
      | error e => simp only [hi] at hok; cases hok
      | ok y =>
        cases y
        simp only [hi] at hok ⊢
        cases u with
        | error e => simp only [] at hok; cases hok
        | ok z =>
          exact ⟨mapGet_mapDelete_self cache (cacheKey table (some id)),
            fun hne => mapGet_mapDelete_ne cache (cacheKey table (some id)) key hne⟩

/-- Claim C4 witness: a successful create on table `t` empties the
prefixed entry `t:1`. -/
theorem claim4_witness :
    mapGet (svcCreate none [("t:1", ⟨⟨"1", none, none, []⟩, 9⟩)] "t"
        (.ok ⟨"x", none, none, []⟩)).cache "t:1" = none :=
  ((claim4_cache_invalidation none [("t:1", ⟨⟨"1", none, none, []⟩, 9⟩)]
      "t" "1" "t:1" (.ok ⟨"x", none, none, []⟩) (.ok []) (.ok 0) (.ok ())
      ⟨"x", none, none, []⟩ [] 0).1) rfl (by decide)

/-- Claim C5: when the table name (or, where applicable, the id) fails
validation, every `DataService` table operation raises the `DataError`
of code VALIDATION before the adapter is invoked, leaving the cache
untouched and the adapter uncalled; and when the adapter call is
reached and throws, the failure is rethrown as a `DataError` of code
ADAPTER carrying the original message — never the adapter's own thrown
value. -/
theorem claim5_error_policy :
    ∀ (allowed : Option (List String)) (cache : Cache) (table id : String)
      (ttl now : Nat) (e : AppError)
      (pg : Except AppError Page) (rc : Except AppError Rec)
      (rcs : Except AppError (List Rec)) (cn : Except AppError Nat)
      (dn : Except AppError Nat) (u : Except AppError Unit)
      (fo : Except AppError (Option Rec)),
      (validateTable allowed table = .error e →
        errorHasCode e .VALIDATION = true ∧
        svcFindMany allowed cache table pg = ⟨.error e, cache, false⟩ ∧
        svcCount allowed cache table cn = ⟨.error e, cache, false⟩ ∧
        svcCreate allowed cache table rc = ⟨.error e, cache, false⟩ ∧
        svcCreateMany allowed cache table rcs = ⟨.error e, cache, false⟩ ∧
        svcDeleteMany allowed cache table dn = ⟨.error e, cache, false⟩ ∧
        svcUpdate allowed cache table id rc = ⟨.error e, cache, false⟩ ∧
        svcDelete allowed cache table id u = ⟨.error e, cache, false⟩ ∧
        svcFindOne allowed ttl now cache table id fo = ⟨.error e, cache, false⟩) ∧
      (validateTable allowed table = .ok () → validateId id = .error e →
        errorHasCode e .VALIDATION = true ∧
        svcUpdate allowed cache table id rc = ⟨.error e, cache, false⟩ ∧
        svcDelete allowed cache table id u = ⟨.error e, cache, false⟩ ∧
        svcFindOne allowed ttl now cache table id fo = ⟨.error e, cache, false⟩) ∧
      (validateTable allowed table = .ok () →
        (svcFindMany allowed cache table (.error e)).result
          = .error (.dataError (errMsg e) .ADAPTER) ∧
        (svcCount allowed cache table (.error e)).result
          = .error (.dataError (errMsg e) .ADAPTER) ∧
        (svcCreate allowed cache table (.error e)).result
          = .error (.dataError (errMsg e) .ADAPTER) ∧
        (svcCreateMany allowed cache table (.error e)).result
          = .error (.dataError (errMsg e) .ADAPTER) ∧
        (svcDeleteMany allowed cache table (.error e)).result
          = .error (.dataError (errMsg e) .ADAPTER) ∧
        (validateId id = .ok () →
          (svcUpdate allowed cache table id (.error e)).result
            = .error (.dataError (errMsg e) .ADAPTER) ∧
          (svcDelete allowed cache table id (.error e)).result
            = .error (.dataError (errMsg e) .ADAPTER) ∧
          ((getCached now cache (cacheKey table (some id))).1 = none →
            (svcFindOne allowed ttl now cache table id (.error e)).result
              = .error (.dataError (errMsg e) .ADAPTER)))) := by
  intro allowed cache table id ttl now e pg rc rcs cn dn u fo
  refine ⟨?_, ?_, ?_⟩
  · intro hv
    refine ⟨validateTable_error_code allowed table e hv,
      ?_, ?_, ?_, ?_, ?_, ?_, ?_, ?_⟩ <;>
      simp only [svcFindMany, svcCount, svcCreate, svcCreateMany,
        svcDeleteMany, svcUpdate, svcDelete, svcFindOne, hv]
  · intro hv hi
    refine ⟨validateId_error_code id e hi, ?_, ?_, ?_⟩ <;>
      simp only [svcUpdate, svcDelete, svcFindOne, hv, hi]
  · intro hv
    refine ⟨?_, ?_, ?_, ?_, ?_, ?_⟩
    · simp only [svcFindMany, hv, wrapErr]
    · simp only [svcCount, hv, wrapErr]
    · simp only [svcCreate, hv, wrapErr]
    · simp only [svcCreateMany, hv, wrapErr]
    · simp only [svcDeleteMany, hv, wrapErr]
    · intro hi
      refine ⟨?_, ?_, ?_⟩
      · simp only [svcUpdate, hv, hi, wrapErr]
      · simp only [svcDelete, hv, hi, wrapErr]
      · intro hcm
        simp only [svcFindOne, hv, hi, hcm, wrapErr]

/-- Claim C5 witness: for the invalid table name `9`, `update` rejects
with the VALIDATION `DataError`, the cache is untouched, and the
adapter is not invoked. -/
theorem claim5_witness :
    svcUpdate none [] "9" "x" (.ok ⟨"x", none, none, []⟩)
      = ⟨.error (.dataError "Invalid table name: 9" .VALIDATION), [], false⟩ :=
  ((claim5_error_policy none [] "9" "x" 0 0
      (.dataError "Invalid table name: 9" .VALIDATION)
      (.ok ⟨[], 0, 0, 0, false⟩) (.ok ⟨"x", none, none, []⟩) (.ok []) (.ok 0)
      (.ok 0) (.ok ()) (.ok none)).1 (by rfl)).2.2.2.2.2.2.1

/-- Claim C2 counterexample: on a `users` table holding only id `a`,
`DataService.delete` of the absent id `b` (both identifiers valid)
fails with a `DataError` of code ADAPTER — the adapter's NOT_FOUND
`DataError` is re-wrapped by the service's catch-all — so the error
surfaced to the caller does not carry code NOT_FOUND. -/
theorem claim2_counterexample :
    (svcDeleteMem none ⟨[("users", [⟨"a", none, none, []⟩])], [], 0⟩
        "users" "b").1
      = .error (.dataError "Not found: b" .ADAPTER) ∧
    errorHasCode (.dataError "Not found: b" .ADAPTER) .NOT_FOUND = false :=
  ⟨rfl, rfl⟩

/-- Claim C2 (amended): for every valid table name and valid id, when
the id is absent `DataService.delete` over the in-memory adapter fails
with a `DataError` whose code is ADAPTER and whose message is
`Not found: <id>` (the adapter's NOT_FOUND error re-wrapped at the
service boundary); when the id is present (uniquely, ids being unique
identifiers), delete succeeds, the record is removed, and a subsequent
`findOne` for that id returns absent. -/
theorem claim2_delete :
    ∀ (allowed : Option (List String)) (st : MemSvcState) (table id : String),
      validateTable allowed table = .ok () →
      validateId id = .ok () →
      ((memFindOne st.tables table id = none →
        (svcDeleteMem allowed st table id).1
          = .error (.dataError ("Not found: " ++ id) .ADAPTER)) ∧
      (∀ (ttl now : Nat) (r : Rec),
        memFindOne st.tables table id = some r →
        (recsOf st.tables table).countP (fun x => x.id = id) ≤ 1 →
        (svcDeleteMem allowed st table id).1 = .ok () ∧
        memFindOne (svcDeleteMem allowed st table id).2.tables table id = none ∧
        (svcFindOneMem allowed ttl now (svcDeleteMem allowed st table id).2
            table id).1 = .ok none)) := by
  intro allowed st table id hv hi
  constructor
  · intro hnone
    have hany := memFindOne_none_not_any st.tables table id hnone
    simp [svcDeleteMem, hv, hi, memDelete, hany, wrapErr, errMsg]
  · intro ttl now r hsome hcount
    have hany := memFindOne_some_any st.tables table id r hsome
    have hdel : memDelete st.tables table id
        = .ok (mapSet st.tables table
            ((recsOf st.tables table).eraseP (fun x => x.id = id))) := by
      simp [memDelete, hany]
    have hsvc : svcDeleteMem allowed st table id
        = (.ok (), { st with
            tables := mapSet st.tables table
              ((recsOf st.tables table).eraseP (fun x => x.id = id)),
            cache := mapDelete st.cache (cacheKey table (some id)) }) := by
      simp only [svcDeleteMem, hv, hi, hdel]
    have hfind : memFindOne (mapSet st.tables table
        ((recsOf st.tables table).eraseP (fun x => x.id = id))) table id
          = none := by
      unfold memFindOne recsOf
      rw [mapGet_mapSet_self]
      exact find?_eraseP_of_countP_le_one _ _ hcount
    refine ⟨by rw [hsvc], by rw [hsvc]; exact hfind, ?_⟩
    rw [hsvc]
    have hg : getCached now (mapDelete st.cache (cacheKey table (some id)))
        (cacheKey table (some id))
          = (none, mapDelete st.cache (cacheKey table (some id))) := by
      unfold getCached
      rw [mapGet_mapDelete_self]
    simp only [svcFindOneMem, hv, hi, hg, hfind]

/-- Claim C2 witness: deleting the present id `a` succeeds and the
subsequent `findOne` misses. -/
theorem claim2_witness :
    (svcDeleteMem none ⟨[("users", [⟨"a", none, none, []⟩])], [], 0⟩
        "users" "a").1 = .ok () ∧
    (svcFindOneMem none 0 0
      (svcDeleteMem none ⟨[("users", [⟨"a", none, none, []⟩])], [], 0⟩
        "users" "a").2 "users" "a").1 = .ok none := by
  have h := (claim2_delete none ⟨[("users", [⟨"a", none, none, []⟩])], [], 0⟩
      "users" "a" (by rfl) (by rfl)).2 0 0 ⟨"a", none, none, []⟩
      (by rfl) (by decide)
  exact ⟨h.1, h.2.2⟩

theorem memCreateMany_spec (now : String) (table : String) :
    ∀ (items : List (List (String × Json))) (tables : Tables) (cnt : Nat),
      (memCreateMany now tables cnt table items).1.length = items.length ∧
      (∀ i : Nat, (memCreateMany now tables cnt table items).1[i]?
        = (items[i]?).map
            (fun d => (⟨uuid (cnt + i), some now, some now, d⟩ : Rec))) ∧
      recsOf (memCreateMany now tables cnt table items).2.1 table
        = recsOf tables table ++ (memCreateMany now tables cnt table items).1 ∧
      (memCreateMany now tables cnt table items).2.2 = cnt + items.length := by
  intro items
  induction items with
  | nil =>
    intro tables cnt
    refine ⟨rfl, ?_, by simp [memCreateMany], rfl⟩
    intro i
    simp [memCreateMany]
  | cons d ds ih =>
    intro tables cnt
    obtain ⟨ihlen, ihpt, ihrecs, ihcnt⟩ :=
      ih (mapSet tables table
        (recsOf tables table ++ [⟨uuid cnt, some now, some now, d⟩])) (cnt + 1)
    have hstep : memCreateMany now tables cnt table (d :: ds)
        = ((⟨uuid cnt, some now, some now, d⟩ : Rec)
              :: (memCreateMany now (mapSet tables table
                  (recsOf tables table ++ [⟨uuid cnt, some now, some now, d⟩]))
                  (cnt + 1) table ds).1,
            (memCreateMany now (mapSet tables table
                (recsOf tables table ++ [⟨uuid cnt, some now, some now, d⟩]))
                (cnt + 1) table ds).2.1,
            (memCreateMany now (mapSet tables table
                (recsOf tables table ++ [⟨uuid cnt, some now, some now, d⟩]))
                (cnt + 1) table ds).2.2) := rfl
    refine ⟨?_, ?_, ?_, ?_⟩
    · rw [hstep]
      simp [ihlen]
    · intro i
      rw [hstep]
      cases i with
      | zero => simp
      | succ i =>
        simp only [List.getElem?_cons_succ]
        rw [ihpt i]
        cases hd : ds[i]? with
        | none => simp
        | some x =>
          rw [show cnt + 1 + i = cnt + (i + 1) from by omega]
    · rw [hstep]
      simp only []
      rw [ihrecs]
      have hT1 : recsOf (mapSet tables table
          (recsOf tables table ++ [⟨uuid cnt, some now, some now, d⟩])) table
            = recsOf tables table ++ [⟨uuid cnt, some now, some now, d⟩] := by
        unfold recsOf
        rw [mapGet_mapSet_self]
        rfl
      rw [hT1, List.append_assoc, List.singleton_append]
    · rw [hstep]
      simp only [List.length_cons]
      omega

theorem memCreateMany_ids_nodup (now : String) (table : String)
    (items : List (List (String × Json))) (tables : Tables) (cnt : Nat) :
    ((memCreateMany now tables cnt table items).1.map
      (fun r => r.id)).Nodup := by
  obtain ⟨hlen, hpt, -, -⟩ := memCreateMany_spec now table items tables cnt
  have hid : ∀ (k : Nat)
      (hk : k < (memCreateMany now tables cnt table items).1.length),
      ((memCreateMany now tables cnt table items).1[k]).id = uuid (cnt + k) := by
    intro k hk
    have hk' : k < items.length := by omega
    have h1 : items[k]? = some (items[k]) := List.getElem?_eq_getElem hk'
    have h2 := hpt k
    rw [h1] at h2
    have h3 : (memCreateMany now tables cnt table items).1[k]?
        = some ((memCreateMany now tables cnt table items).1[k]) :=
      List.getElem?_eq_getElem hk
    rw [h3] at h2
    injection h2 with h4
    rw [h4]
  show ((memCreateMany now tables cnt table items).1.map
    (fun r => r.id)).Pairwise (· ≠ ·)
  rw [List.pairwise_map, List.pairwise_iff_get]
  intro i j hij
  have hi := hid i.1 i.2
  have hj := hid j.1 j.2
  rw [List.get_eq_getElem, List.get_eq_getElem, hi, hj]
  intro hcontra
  have := uuid_inj hcontra
  omega

/-- Claim C10: the in-memory adapter's `createMany` returns exactly one
created record per input element, in input order (entry `i` carries
the fresh id `uuid (cnt + i)`, `created_at`/`updated_at` set to the
creation time, and the input fields), appends all of them to the
table, advances the uuid counter by the batch size, and the fresh ids
are pairwise distinct. -/
theorem claim10_createMany :
    ∀ (now : String) (tables : Tables) (cnt : Nat) (table : String)
      (items : List (List (String × Json))),
      (memCreateMany now tables cnt table items).1.length = items.length ∧
      (∀ i : Nat, (memCreateMany now tables cnt table items).1[i]?
        = (items[i]?).map
            (fun d => (⟨uuid (cnt + i), some now, some now, d⟩ : Rec))) ∧
      recsOf (memCreateMany now tables cnt table items).2.1 table
        = recsOf tables table ++ (memCreateMany now tables cnt table items).1 ∧
      ((memCreateMany now tables cnt table items).1.map
        (fun r => r.id)).Nodup ∧
      (memCreateMany now tables cnt table items).2.2 = cnt + items.length := by
  intro now tables cnt table items
  obtain ⟨h1, h2, h3, h4⟩ := memCreateMany_spec now table items tables cnt
  exact ⟨h1, h2, h3, memCreateMany_ids_nodup now table items tables cnt, h4⟩

end Data
